import Mathlib

/-!
Shallow embedding of the Learning-Networking repository (Rust) in Lean 4.

Source files embedded:
- src/bit_utils.rs : generic popcount (used at type u128)
- src/nat_v4.rs    : NAPT table (port allocation, translation, pruning)
- src/networkingv6.rs : IPv6 masking and longest-prefix-match routing table

Modelling conventions:
- Machine integers (u16 ports, u128 IPv6 addresses, Ipv4Addr) are modelled
  as Nat; the embedded operations only compare, bitwise-and, and enumerate
  them, none of which overflow.
- std::time::Instant and Duration are modelled as Nat; Instant::now() reads
  are made explicit as parameters (one parameter per read site), and
  Instant::duration_since is Nat subtraction (it saturates at zero, exactly
  as truncated Nat subtraction does).
- &mut self methods become state-passing functions returning the new table;
  &self methods also return the (unchanged) table where a claim speaks about
  the table not being modified.
-/

namespace LearningNetworking

/-- Embedding of popcount from src/bit_utils.rs: repeatedly clears the
lowest set bit (a &= a-1) and counts iterations. Modelled at the unsigned
instantiation (u128) used by the repository, where the loop variable is a
Nat and a-1 never wraps because the loop body runs only when a ≠ 0. -/
def popcount (a : Nat) : Nat :=
  if h : a = 0 then 0
  else popcount (a &&& (a - 1)) + 1
termination_by a
decreasing_by
  exact lt_of_le_of_lt Nat.and_le_right (Nat.sub_lt (Nat.pos_of_ne_zero h) Nat.one_pos)

/-- Specification-side definition (from the spec's words, for comparison
with popcount): the number of set bits of a natural number, computed by
binary decomposition. -/
def countSetBits (n : Nat) : Nat :=
  if h : n = 0 then 0
  else countSetBits (n / 2) + n % 2
termination_by n
decreasing_by
  exact Nat.div_lt_self (Nat.pos_of_ne_zero h) (by decide)

/-- Embedding of IpAddrTools::mask for Ipv6Addr (src/networkingv6.rs).
The Rust body is
  let ip : u128 = self.into();
  let mask : u128 = self.into();
  let result = ip & mask;
and the second local shadows the mask parameter with self, reproduced
here literally. -/
def ipv6_mask (self mask : Nat) : Nat :=
  let ip : Nat := self
  let mask : Nat := self
  ip &&& mask

/-- Embedding of IpAddrTools::count_contiguous_ones for Ipv6Addr
(src/networkingv6.rs): popcount of the 128-bit value. -/
def count_contiguous_ones (self : Nat) : Nat :=
  popcount self

/-- Embedding of enum Interface (src/networkingv6.rs). -/
inductive Interface where
  | IpAddr : Nat → Interface
  | Port : Nat → Interface
deriving DecidableEq, Repr

/-- Embedding of struct Route (src/networkingv6.rs). -/
structure Route where
  destination : Nat
  mask : Nat
  next_hop : Interface
deriving DecidableEq, Repr

/-- Embedding of Route::matches (src/networkingv6.rs):
ipaddr.mask(self.mask) == self.destination. -/
def Route.matches (r : Route) (ipaddr : Nat) : Bool :=
  ipv6_mask ipaddr r.mask == r.destination

/-- Embedding of struct RoutingTable (src/networkingv6.rs). -/
structure RoutingTable where
  name : String
  table : List Route
deriving Repr

/-- One step of Rust Iterator::max_by_key: the accumulator is kept only
when its key is strictly greater, so an element whose key ties the
accumulator replaces it, exactly as documented for Rust's max_by_key
(\"If several elements are equally maximum, the last element is
returned\"). -/
def rust_max_step {α : Type} (key : α → Nat) (acc y : α) : α :=
  if key y < key acc then acc else y

/-- Embedding of Rust Iterator::max_by_key semantics as a fold of
rust_max_step over the list. -/
def max_by_key {α : Type} (key : α → Nat) : List α → Option α
  | [] => none
  | x :: xs => some (xs.foldl (rust_max_step key) x)

/-- Embedding of RoutingTable::find_best_route (src/networkingv6.rs):
filter the routes that match, then max_by_key on
count_contiguous_ones of the route's mask. -/
def RoutingTable.find_best_route (t : RoutingTable) (ipaddr : Nat) : Option Route :=
  max_by_key (fun route => count_contiguous_ones route.mask)
    (t.table.filter (fun route => route.matches ipaddr))

/-- Embedding of RoutingTable::find_next_hop (src/networkingv6.rs). -/
def RoutingTable.find_next_hop (t : RoutingTable) (ipaddr : Nat) : Option Interface :=
  match t.find_best_route ipaddr with
  | some route => some route.next_hop
  | none => none

/-- Embedding of struct RandomTransportPacket (src/nat_v4.rs). -/
structure RandomTransportPacket where
  time_to_live : Nat
  source_ip : Nat
  destination_ip : Nat
  source_port : Nat
  destination_port : Nat
  data : String
deriving DecidableEq, Repr

/-- Embedding of struct NatEntry (src/nat_v4.rs). -/
structure NatEntry where
  source_ip : Nat
  source_port : Nat
  computer : Nat
  mangled_port : Nat
  mapped_on_time : Nat
  time_to_live : Nat
deriving DecidableEq, Repr

/-- Embedding of struct NatTable (src/nat_v4.rs). -/
structure NatTable where
  name : String
  translated_addr : Nat
  table : List NatEntry
deriving DecidableEq, Repr

namespace NatTable

/-- Embedding of NatTable::has_available_port (src/nat_v4.rs): true iff no
entry uses the port as its mangled port. -/
def has_available_port (self : NatTable) (port : Nat) : Bool :=
  (self.table.find? (fun entry => entry.mangled_port == port)).isNone

/-- Embedding of NatTable::extract_available_port (src/nat_v4.rs): the Rust
iterator (0..u16::MAX).filter(available).next() scans ports 0 to 65534
(u16::MAX = 65535 is excluded by the half-open range) and returns the first
available one. -/
def extract_available_port (self : NatTable) : Option Nat :=
  (List.range 65535).find? (fun port => self.has_available_port port)

/-- Embedding of NatTable::prune_unnecessary_ports (src/nat_v4.rs): one
Instant::now() reading (the new_now parameter) is applied uniformly:
retain exactly the entries with new_now - mapped_on_time < time_to_live. -/
def prune_unnecessary_ports (self : NatTable) (new_now : Nat) : NatTable :=
  { self with
    table := self.table.filter
      (fun entry => new_now - entry.mapped_on_time < entry.time_to_live) }

/-- Embedding of NatTable::give_me_a_port (src/nat_v4.rs). The two
Instant::now() read sites (inside prune_unnecessary_ports, and for the new
entry's mapped_on_time) are the parameters now_prune and now_entry. Returns
the updated table together with Option (translated address, port); note the
table is pruned even on the failing path. -/
def give_me_a_port (self : NatTable) (now_prune now_entry : Nat)
    (my_ip my_port me duration : Nat) : NatTable × Option (Nat × Nat) :=
  match self.extract_available_port with
  | some port =>
    ({ self with table := self.table ++
        [{ source_ip := my_ip, source_port := my_port, computer := me,
           mangled_port := port, mapped_on_time := now_entry,
           time_to_live := duration }] },
     some (self.translated_addr, port))
  | none =>
    match (self.prune_unnecessary_ports now_prune).extract_available_port with
    | some port =>
      ({ self.prune_unnecessary_ports now_prune with
         table := (self.prune_unnecessary_ports now_prune).table ++
          [{ source_ip := my_ip, source_port := my_port, computer := me,
             mangled_port := port, mapped_on_time := now_entry,
             time_to_live := duration }] },
       some ((self.prune_unnecessary_ports now_prune).translated_addr, port))
    | none => (self.prune_unnecessary_ports now_prune, none)

/-- Embedding of NatTable::found_on_nat (src/nat_v4.rs): first entry whose
original source address and port match. -/
def found_on_nat (self : NatTable) (ip_addr port : Nat) : Option NatEntry :=
  self.table.find? (fun entry => entry.source_ip == ip_addr && entry.source_port == port)

/-- Embedding of NatTable::translate_incoming (src/nat_v4.rs). The Rust
method takes &self (no mutation); the unchanged table is returned
explicitly so that frame claims can speak about it. -/
def translate_incoming (self : NatTable) (packet : RandomTransportPacket) :
    NatTable × Option (RandomTransportPacket × Nat) :=
  match self.table.find? (fun entry => entry.mangled_port == packet.destination_port) with
  | none => (self, none)
  | some nat_entry =>
    (self, some ({ packet with
        destination_ip := nat_entry.source_ip
        destination_port := nat_entry.source_port }, nat_entry.computer))

/-- Embedding of NatTable::translate_outgoing (src/nat_v4.rs). If an entry
for the packet's source endpoint exists, the packet's source fields are
rewritten to the public address and that entry's mangled port, and then —
with no early return in the source — give_me_a_port is called
unconditionally on the (possibly rewritten) packet's source fields. -/
def translate_outgoing (self : NatTable) (now_prune now_entry : Nat)
    (packet : RandomTransportPacket) (computer : Nat) :
    NatTable × Option RandomTransportPacket :=
  let packet1 :=
    match self.found_on_nat packet.source_ip packet.source_port with
    | some nat_entry =>
      { packet with source_ip := self.translated_addr, source_port := nat_entry.mangled_port }
    | none => packet
  match self.give_me_a_port now_prune now_entry packet1.source_ip packet1.source_port
      computer packet1.time_to_live with
  | (self1, none) => (self1, none)
  | (self1, some (ip, port)) =>
    (self1, some { packet1 with source_ip := ip, source_port := port })

end NatTable

/-- The NAT table states reachable from an empty table by the public
operations: outgoing translation (which allocates), incoming translation,
and expiry pruning. Lookups (has_available_port, extract_available_port,
found_on_nat) take &self and return no table, so they induce no
transition. -/
inductive Reachable : NatTable → Prop where
  | init : ∀ nm addr, Reachable { name := nm, translated_addr := addr, table := [] }
  | outgoing : ∀ {t : NatTable} (now_prune now_entry : Nat)
      (packet : RandomTransportPacket) (computer : Nat),
      Reachable t → Reachable (t.translate_outgoing now_prune now_entry packet computer).1
  | incoming : ∀ {t : NatTable} (packet : RandomTransportPacket),
      Reachable t → Reachable (t.translate_incoming packet).1
  | prune : ∀ {t : NatTable} (new_now : Nat),
      Reachable t → Reachable (t.prune_unnecessary_ports new_now)

/-- The NAT-table invariant: no two entries share the same mangled port. -/
def UniqueMangledPorts (t : NatTable) : Prop :=
  (t.table.map (fun entry => entry.mangled_port)).Nodup

/-! Concrete fixtures used by counterexamples and witnesses. -/

/-- A live NAT entry mapping private endpoint 10:80 to mangled port 5. -/
def entryC2 : NatEntry :=
  { source_ip := 10, source_port := 80, computer := 3, mangled_port := 5,
    mapped_on_time := 0, time_to_live := 100 }

/-- A NAT table holding exactly entryC2. -/
def natC2 : NatTable :=
  { name := "nat", translated_addr := 99, table := [entryC2] }

/-- A packet whose source endpoint 10:80 already has the live mapping
entryC2 in natC2. -/
def pktC2 : RandomTransportPacket :=
  { time_to_live := 100, source_ip := 10, destination_ip := 7,
    source_port := 80, destination_port := 80, data := "hi" }

/-- First route of the tie-break example: destination 0, mask 3 (two set
bits), next hop Port 1. -/
def routeA : Route :=
  { destination := 0, mask := 3, next_hop := Interface.Port 1 }

/-- Second route of the tie-break example: destination 0, mask 5 (also two
set bits), next hop Port 2. -/
def routeB : Route :=
  { destination := 0, mask := 5, next_hop := Interface.Port 2 }

/-- A routing table in which routeA and routeB both match address 0 with
equal count_contiguous_ones metric. -/
def tieTable : RoutingTable :=
  { name := "tie", table := [routeA, routeB] }

/-- A fresh NAT entry occupying mangled port i (time_to_live 10,
created at instant 0). -/
def mkEntry (i : Nat) : NatEntry :=
  { source_ip := 0, source_port := i, computer := 0, mangled_port := i,
    mapped_on_time := 0, time_to_live := 10 }

/-- A NAT table whose entries occupy mangled ports 0 through n-1, all live
at instant 5. The port count is a parameter so that proofs never need to
reduce List.range at a huge literal. -/
def fullTable (n : Nat) : NatTable :=
  { name := "fx", translated_addr := 0, table := (List.range n).map mkEntry }

/-- An entry that is already expired at instant 5 (time_to_live 0). -/
def expiredEntry : NatEntry :=
  { source_ip := 1, source_port := 1, computer := 0, mangled_port := 0,
    mapped_on_time := 0, time_to_live := 0 }

/-- fullTable n plus one expired entry: pruning at instant 5 removes
exactly the expired entry. -/
def fullTableX (n : Nat) : NatTable :=
  { name := "fx", translated_addr := 0,
    table := (fullTable n).table ++ [expiredEntry] }

/-- A NAT table whose entries occupy exactly mangled ports 0, 1 and 2. -/
def table3 : NatTable :=
  { name := "t3", translated_addr := 9,
    table := [mkEntry 0, mkEntry 1, mkEntry 2] }

/-- An arbitrary packet for the exhaustion scenario. -/
def pktC7 : RandomTransportPacket :=
  { time_to_live := 1, source_ip := 9, destination_ip := 9,
    source_port := 9, destination_port := 9, data := "" }

/-- An empty NAT table with public address 42. -/
def emptyNat : NatTable :=
  { name := "e", translated_addr := 42, table := [] }

/-- A packet from private endpoint 10:8090, to be translated through
emptyNat. -/
def pkt5 : RandomTransportPacket :=
  { time_to_live := 20, source_ip := 10, destination_ip := 8,
    source_port := 8090, destination_port := 80, data := "x" }

/-- A reply packet addressed to the mangled port 0 that the outgoing
translation of pkt5 through emptyNat allocates. -/
def q5 : RandomTransportPacket :=
  { time_to_live := 9, source_ip := 77, destination_ip := 1,
    source_port := 3, destination_port := 0, data := "y" }

/-- The table obtained by translating pkt5 outgoing through emptyNat:
one entry mapping 10:8090 to mangled port 0 for client 12. -/
def nat5After : NatTable :=
  { name := "e", translated_addr := 42,
    table := [{ source_ip := 10, source_port := 8090, computer := 12,
                mangled_port := 0, mapped_on_time := 0, time_to_live := 20 }] }

/-- pkt5 as it leaves the NAT: source rewritten to the public address 42
and the allocated mangled port 0. -/
def out5 : RandomTransportPacket :=
  { pkt5 with source_ip := 42, source_port := 0 }

/-- A NAT entry with mangled port 7 for the incoming-translation frame
witness. -/
def entry10 : NatEntry :=
  { source_ip := 5, source_port := 80, computer := 2, mangled_port := 7,
    mapped_on_time := 0, time_to_live := 30 }

/-- A NAT table holding exactly entry10. -/
def nat10 : NatTable :=
  { name := "n10", translated_addr := 4, table := [entry10] }

/-- An incoming packet whose destination port 7 matches entry10. -/
def pkt10 : RandomTransportPacket :=
  { time_to_live := 3, source_ip := 50, destination_ip := 4,
    source_port := 60, destination_port := 7, data := "d" }

/-- pkt10 after incoming translation through nat10: destination rewritten
to entry10's original private endpoint 5:80. -/
def pkt10Out : RandomTransportPacket :=
  { pkt10 with destination_ip := 5, destination_port := 80 }

/-! Helper lemmas: find? over List.range. -/

lemma find?_range_eq_some (p : Nat → Bool) {n k : Nat} (hk : k < n)
    (hpk : p k = true) (hlow : ∀ j < k, p j = false) :
    (List.range n).find? p = some k := by
  induction n with
  | zero => omega
  | succ m ih =>
    rw [List.range_succ, List.find?_append]
    rcases Nat.lt_or_ge k m with h | h
    · rw [ih h]; rfl
    · have hkm : k = m := by omega
      subst hkm
      have hnone : (List.range k).find? p = none := by
        rw [List.find?_eq_none]
        intro j hj
        rw [List.mem_range] at hj
        simp [hlow j hj]
      rw [hnone, List.find?_cons_of_pos _ hpk]
      rfl

lemma find?_range_some_inv (p : Nat → Bool) :
    ∀ {n k : Nat}, (List.range n).find? p = some k →
      k < n ∧ p k = true ∧ ∀ j < k, p j = false := by
  intro n
  induction n with
  | zero => intro k h; simp [List.range_zero] at h
  | succ m ih =>
    intro k h
    rw [List.range_succ, List.find?_append] at h
    cases hfm : (List.range m).find? p with
    | some a =>
      rw [hfm] at h
      simp only [Option.or_some, Option.some.injEq] at h
      subst h
      obtain ⟨hlt, hp, hmin⟩ := ih hfm
      exact ⟨Nat.lt_succ_of_lt hlt, hp, hmin⟩
    | none =>
      rw [hfm] at h
      simp only [Option.none_or] at h
      rw [List.find?_cons_eq_some] at h
      rcases h with ⟨hpm, rfl⟩ | ⟨-, habs⟩
      · refine ⟨Nat.lt_succ_self m, hpm, ?_⟩
        intro j hj
        have := List.find?_eq_none.mp hfm j (List.mem_range.mpr hj)
        simpa using this
      · simp at habs

lemma find?_range_eq_none_iff (p : Nat → Bool) {n : Nat} :
    (List.range n).find? p = none ↔ ∀ j < n, p j = false := by
  rw [List.find?_eq_none]
  constructor
  · intro h j hj
    have := h j (List.mem_range.mpr hj)
    simpa using this
  · intro h x hx
    rw [List.mem_range] at hx
    simp [h x hx]

namespace NatTable

/-! Helper lemmas: port availability and extraction. -/

lemma has_available_port_true_iff (t : NatTable) (p : Nat) :
    t.has_available_port p = true ↔ ∀ e ∈ t.table, e.mangled_port ≠ p := by
  unfold has_available_port
  rw [Option.isNone_iff_eq_none, List.find?_eq_none]
  constructor
  · intro h e he heq
    have := h e he
    simp [heq] at this
  · intro h e he
    simp [h e he]

lemma has_available_port_false_iff (t : NatTable) (p : Nat) :
    t.has_available_port p = false ↔ ∃ e ∈ t.table, e.mangled_port = p := by
  rw [← Bool.not_eq_true, has_available_port_true_iff]
  push_neg
  exact Iff.rfl

lemma extract_some_char (t : NatTable) {p : Nat}
    (h : t.extract_available_port = some p) :
    p < 65535 ∧ t.has_available_port p = true ∧
      ∀ q < p, t.has_available_port q = false :=
  find?_range_some_inv _ h

lemma extract_none_iff (t : NatTable) :
    t.extract_available_port = none ↔
      ∀ p < 65535, t.has_available_port p = false :=
  find?_range_eq_none_iff _

lemma extract_some_of (t : NatTable) {k : Nat} (hk : k < 65535)
    (h1 : t.has_available_port k = true)
    (h2 : ∀ j < k, t.has_available_port j = false) :
    t.extract_available_port = some k :=
  find?_range_eq_some _ hk h1 h2

end NatTable

/-! Helper lemmas: the full table fixtures. -/

lemma fullTable_mem {n : Nat} {e : NatEntry} :
    e ∈ (fullTable n).table ↔ ∃ i < n, e = mkEntry i := by
  show e ∈ (List.range n).map mkEntry ↔ _
  rw [List.mem_map]
  constructor
  · rintro ⟨i, hi, rfl⟩
    exact ⟨i, List.mem_range.mp hi, rfl⟩
  · rintro ⟨i, hi, rfl⟩
    exact ⟨i, List.mem_range.mpr hi, rfl⟩

lemma fullTable_avail_false {n p : Nat} (hp : p < n) :
    (fullTable n).has_available_port p = false := by
  rw [NatTable.has_available_port_false_iff]
  exact ⟨mkEntry p, fullTable_mem.mpr ⟨p, hp, rfl⟩, rfl⟩

lemma fullTable_avail_true {n p : Nat} (hp : n ≤ p) :
    (fullTable n).has_available_port p = true := by
  rw [NatTable.has_available_port_true_iff]
  intro e he
  obtain ⟨i, hi, rfl⟩ := fullTable_mem.mp he
  show i ≠ p
  omega

lemma fullTable_extract_none {n : Nat} (hn : 65535 ≤ n) :
    (fullTable n).extract_available_port = none :=
  (NatTable.extract_none_iff _).mpr
    (fun p hp => fullTable_avail_false (lt_of_lt_of_le hp hn))

lemma fullNat_extract_none : (fullTable 65535).extract_available_port = none :=
  fullTable_extract_none le_rfl

lemma fullNat_avail_65535 : (fullTable 65535).has_available_port 65535 = true :=
  fullTable_avail_true le_rfl

lemma table3_extract : table3.extract_available_port = some 3 := by
  apply NatTable.extract_some_of
  · decide
  · decide
  · intro j hj
    interval_cases j <;> decide

/-- C4, counterexample to the claim as stated: fullTable 65535 occupies exactly
mangled ports 0 through 65534, so port 65535 of the claimed full 16-bit
port space is not in use, yet extract_available_port returns None — the
scan stops at 65534 because the Rust range 0..u16::MAX is half-open. -/
theorem c4_counterexample :
    (fullTable 65535).extract_available_port = none ∧
      (fullTable 65535).has_available_port 65535 = true :=
  ⟨fullNat_extract_none, fullNat_avail_65535⟩

/-- C4 amended: extract_available_port returns the lowest-numbered port in
0..65534 (port 65535 is never scanned) not currently in use as a mangled
port, and returns None exactly when every port in 0..65534 is occupied. -/
theorem c4_lowest_free_port (t : NatTable) :
    (t.extract_available_port = none ↔
      ∀ p < 65535, t.has_available_port p = false) ∧
    ∀ p : Nat, t.extract_available_port = some p →
      p < 65535 ∧ t.has_available_port p = true ∧
        ∀ q < p, t.has_available_port q = false :=
  ⟨NatTable.extract_none_iff t, fun _ h => NatTable.extract_some_char t h⟩

/-- C4 witness: on the table occupying exactly ports 0, 1 and 2, the
extraction returns port 3, which is free while every lower port is
occupied. -/
theorem c4_witness :
    3 < 65535 ∧ table3.has_available_port 3 = true ∧
      ∀ q < 3, table3.has_available_port q = false :=
  (c4_lowest_free_port table3).2 3 table3_extract

/-- C1: evaluation of the masking slip at a concrete input. Masking the
address ::1 (value 1) with the all-zero mask returns the address
unchanged, although the bitwise AND of 1 with 0 is 0: the Rust body
initializes its local mask from self instead of from the mask
parameter, so a.mask(m) computes a AND a. -/
theorem c1_mask_eval : ipv6_mask 1 0 = 1 ∧ (1 : Nat) &&& 0 = 0 :=
  ⟨rfl, rfl⟩

/-- C10: translate_incoming returns the table unchanged, and the packet it
returns on success differs from the input packet only in the destination
address and destination port: the source address, source port,
time-to-live and payload are those of the input packet. -/
theorem c10_incoming_frame (t : NatTable) (p : RandomTransportPacket) :
    (t.translate_incoming p).1 = t ∧
    ∀ q c, (t.translate_incoming p).2 = some (q, c) →
      q.source_ip = p.source_ip ∧ q.source_port = p.source_port ∧
        q.time_to_live = p.time_to_live ∧ q.data = p.data := by
  unfold NatTable.translate_incoming
  cases t.table.find? (fun entry => entry.mangled_port == p.destination_port) with
  | none =>
    refine ⟨rfl, ?_⟩
    intro q c h
    simp at h
  | some e =>
    refine ⟨rfl, ?_⟩
    intro q c h
    simp only [Option.some.injEq, Prod.mk.injEq] at h
    obtain ⟨h1, -⟩ := h
    subst h1
    exact ⟨rfl, rfl, rfl, rfl⟩

/-- C10 witness: incoming translation of pkt10 through nat10 succeeds with
pkt10Out, whose source fields, time-to-live and payload are those of
pkt10. -/
theorem c10_witness :
    pkt10Out.source_ip = pkt10.source_ip ∧
      pkt10Out.source_port = pkt10.source_port ∧
      pkt10Out.time_to_live = pkt10.time_to_live ∧
      pkt10Out.data = pkt10.data :=
  (c10_incoming_frame nat10 pkt10).2 pkt10Out 2 (by decide)

/-- C8: pruning at one single now reading removes exactly the entries
whose age (now minus creation time) is at least their time-to-live, keeps
all the other entries in their original order (the result is a sublist),
and is idempotent at that same instant. -/
theorem c8_prune_exact (t : NatTable) (now : Nat) :
    (t.prune_unnecessary_ports now).table.Sublist t.table ∧
    (∀ e : NatEntry, (t.prune_unnecessary_ports now).table.count e =
      if now - e.mapped_on_time < e.time_to_live then t.table.count e else 0) ∧
    (t.prune_unnecessary_ports now).prune_unnecessary_ports now =
      t.prune_unnecessary_ports now := by
  refine ⟨List.filter_sublist _, ?_, ?_⟩
  · intro e
    by_cases he : now - e.mapped_on_time < e.time_to_live
    · rw [if_pos he]
      exact List.count_filter (by simpa using he)
    · rw [if_neg he]
      rw [List.count_eq_zero]
      intro hmem
      exact he (by simpa using (List.mem_filter.mp hmem).2)
  · have h2 : (t.prune_unnecessary_ports now).prune_unnecessary_ports now =
        { t.prune_unnecessary_ports now with
          table := (t.prune_unnecessary_ports now).table.filter
            (fun entry => decide (now - entry.mapped_on_time < entry.time_to_live)) } := rfl
    have h : (t.prune_unnecessary_ports now).table.filter
        (fun entry => decide (now - entry.mapped_on_time < entry.time_to_live)) =
        (t.prune_unnecessary_ports now).table := by
      refine List.filter_eq_self.mpr (fun a ha => ?_)
      have ha' : a ∈ t.table.filter
          (fun entry => decide (now - entry.mapped_on_time < entry.time_to_live)) := ha
      exact (List.mem_filter.mp ha').2
    rw [h2, h]

lemma natC2_extract : natC2.extract_available_port = some 0 := by
  apply NatTable.extract_some_of
  · decide
  · decide
  · intro j hj
    omega

lemma c2_compute :
    natC2.translate_outgoing 0 0 pktC2 3 =
      ({ natC2 with table := natC2.table ++
          [{ source_ip := 99, source_port := 5, computer := 3, mangled_port := 0,
             mapped_on_time := 0, time_to_live := 100 }] },
       some { pktC2 with source_ip := 99, source_port := 0 }) := by
  have hfound : natC2.found_on_nat pktC2.source_ip pktC2.source_port = some entryC2 := by
    decide
  unfold NatTable.translate_outgoing NatTable.give_me_a_port
  rw [hfound, natC2_extract]
  rfl

/-- C2: evaluation refuting port reuse. In natC2, entryC2 is a live
mapping for source endpoint 10:80 with mangled port 5; translating an
outgoing packet from 10:80 nevertheless allocates the fresh port 0
(the packet leaves with source port 0, not 5) and appends a second entry
to the table. -/
theorem c2_no_reuse_eval :
    natC2.found_on_nat pktC2.source_ip pktC2.source_port = some entryC2 ∧
    entryC2.mangled_port = 5 ∧
    ((natC2.translate_outgoing 0 0 pktC2 3).2.map
      (fun q => q.source_port)) = some 0 ∧
    (natC2.translate_outgoing 0 0 pktC2 3).1.table.length = 2 := by
  refine ⟨by decide, rfl, ?_, ?_⟩
  · rw [c2_compute]
    rfl
  · rw [c2_compute]
    rfl

namespace NatTable

/-! Helper lemmas: equations for give_me_a_port and translate_outgoing. -/

lemma prune_table_eq (t : NatTable) (now : Nat) :
    (t.prune_unnecessary_ports now).table =
      t.table.filter
        (fun entry => decide (now - entry.mapped_on_time < entry.time_to_live)) :=
  rfl

lemma translate_incoming_fst (t : NatTable) (p : RandomTransportPacket) :
    (t.translate_incoming p).1 = t := by
  unfold translate_incoming
  cases t.table.find? (fun entry => entry.mangled_port == p.destination_port) <;> rfl

lemma translate_incoming_of_find_some {t : NatTable} {pkt : RandomTransportPacket}
    {e : NatEntry}
    (h : t.table.find? (fun entry => entry.mangled_port == pkt.destination_port) = some e) :
    t.translate_incoming pkt =
      (t, some ({ pkt with destination_ip := e.source_ip,
                           destination_port := e.source_port }, e.computer)) := by
  unfold translate_incoming
  rw [h]

lemma give_me_of_extract_some (t : NatTable) {port : Nat} (nP nE ip pt me dur : Nat)
    (hex : t.extract_available_port = some port) :
    t.give_me_a_port nP nE ip pt me dur =
      ({ t with table := t.table ++
          [{ source_ip := ip, source_port := pt, computer := me, mangled_port := port,
             mapped_on_time := nE, time_to_live := dur }] },
       some (t.translated_addr, port)) := by
  unfold give_me_a_port
  rw [hex]

lemma give_me_of_extract_none_some (t : NatTable) {port : Nat} (nP nE ip pt me dur : Nat)
    (hex : t.extract_available_port = none)
    (hex2 : (t.prune_unnecessary_ports nP).extract_available_port = some port) :
    t.give_me_a_port nP nE ip pt me dur =
      ({ t.prune_unnecessary_ports nP with
         table := (t.prune_unnecessary_ports nP).table ++
          [{ source_ip := ip, source_port := pt, computer := me, mangled_port := port,
             mapped_on_time := nE, time_to_live := dur }] },
       some ((t.prune_unnecessary_ports nP).translated_addr, port)) := by
  unfold give_me_a_port
  rw [hex, hex2]

lemma give_me_of_extract_none_none (t : NatTable) (nP nE ip pt me dur : Nat)
    (hex : t.extract_available_port = none)
    (hex2 : (t.prune_unnecessary_ports nP).extract_available_port = none) :
    t.give_me_a_port nP nE ip pt me dur = (t.prune_unnecessary_ports nP, none) := by
  unfold give_me_a_port
  rw [hex, hex2]

lemma give_me_none_fst {t : NatTable} {nP nE ip pt me dur : Nat}
    (h : (t.give_me_a_port nP nE ip pt me dur).2 = none) :
    (t.give_me_a_port nP nE ip pt me dur).1 = t.prune_unnecessary_ports nP := by
  cases hex : t.extract_available_port with
  | some port =>
    rw [give_me_of_extract_some t nP nE ip pt me dur hex] at h
    simp at h
  | none =>
    cases hex2 : (t.prune_unnecessary_ports nP).extract_available_port with
    | some port =>
      rw [give_me_of_extract_none_some t nP nE ip pt me dur hex hex2] at h
      simp at h
    | none =>
      rw [give_me_of_extract_none_none t nP nE ip pt me dur hex hex2]

lemma give_me_some_char {t t' : NatTable} {nP nE ip pt me dur addr port : Nat}
    (h : t.give_me_a_port nP nE ip pt me dur = (t', some (addr, port))) :
    ∃ base : NatTable,
      base.extract_available_port = some port ∧
      t'.table = base.table ++
        [{ source_ip := ip, source_port := pt, computer := me, mangled_port := port,
           mapped_on_time := nE, time_to_live := dur }] ∧
      addr = t.translated_addr := by
  cases hex : t.extract_available_port with
  | some p0 =>
    rw [give_me_of_extract_some t nP nE ip pt me dur hex] at h
    simp only [Prod.mk.injEq, Option.some.injEq] at h
    obtain ⟨h1, h2, h3⟩ := h
    subst h1
    subst h3
    subst h2
    exact ⟨t, hex, rfl, rfl⟩
  | none =>
    cases hex2 : (t.prune_unnecessary_ports nP).extract_available_port with
    | some p0 =>
      rw [give_me_of_extract_none_some t nP nE ip pt me dur hex hex2] at h
      simp only [Prod.mk.injEq, Option.some.injEq] at h
      obtain ⟨h1, h2, h3⟩ := h
      subst h1
      subst h3
      have h4 : addr = t.translated_addr := h2.symm
      subst h4
      exact ⟨t.prune_unnecessary_ports nP, hex2, rfl, rfl⟩
    | none =>
      rw [give_me_of_extract_none_none t nP nE ip pt me dur hex hex2] at h
      simp at h

lemma translate_outgoing_found_none (t : NatTable) (nP nE : Nat)
    (pkt : RandomTransportPacket) (comp : Nat)
    (hf : t.found_on_nat pkt.source_ip pkt.source_port = none) :
    t.translate_outgoing nP nE pkt comp =
      match t.give_me_a_port nP nE pkt.source_ip pkt.source_port comp pkt.time_to_live with
      | (t1, none) => (t1, none)
      | (t1, some (ip, port)) =>
        (t1, some { pkt with source_ip := ip, source_port := port }) := by
  unfold translate_outgoing
  rw [hf]

lemma translate_outgoing_shape (t : NatTable) (nP nE : Nat)
    (pkt : RandomTransportPacket) (comp : Nat) :
    ∃ ip pt dur,
      (t.translate_outgoing nP nE pkt comp).1 =
        (t.give_me_a_port nP nE ip pt comp dur).1 ∧
      ((t.translate_outgoing nP nE pkt comp).2 = none ↔
        (t.give_me_a_port nP nE ip pt comp dur).2 = none) := by
  unfold translate_outgoing
  cases hf : t.found_on_nat pkt.source_ip pkt.source_port with
  | none =>
    refine ⟨pkt.source_ip, pkt.source_port, pkt.time_to_live, ?_⟩
    cases hg : t.give_me_a_port nP nE pkt.source_ip pkt.source_port comp pkt.time_to_live with
    | mk t1 res =>
      cases res with
      | none => simp [hg]
      | some pr =>
        obtain ⟨ip, port⟩ := pr
        simp [hg]
  | some e =>
    refine ⟨t.translated_addr, e.mangled_port, pkt.time_to_live, ?_⟩
    cases hg : t.give_me_a_port nP nE t.translated_addr e.mangled_port comp
        pkt.time_to_live with
    | mk t1 res =>
      cases res with
      | none => simp [hg]
      | some pr =>
        obtain ⟨ip, port⟩ := pr
        simp [hg]

end NatTable

/-! Helper lemmas: preservation of mangled-port uniqueness. -/

lemma unique_empty (nm : String) (addr : Nat) :
    UniqueMangledPorts { name := nm, translated_addr := addr, table := [] } := by
  simp [UniqueMangledPorts]

lemma unique_prune {t : NatTable} (h : UniqueMangledPorts t) (now : Nat) :
    UniqueMangledPorts (t.prune_unnecessary_ports now) := by
  unfold UniqueMangledPorts at h ⊢
  rw [NatTable.prune_table_eq]
  exact h.sublist (List.Sublist.map _ (List.filter_sublist _))

lemma unique_append_free {t : NatTable} (h : UniqueMangledPorts t) {e : NatEntry}
    (hfree : t.has_available_port e.mangled_port = true) :
    UniqueMangledPorts { t with table := t.table ++ [e] } := by
  unfold UniqueMangledPorts at h ⊢
  show ((t.table ++ [e]).map (fun entry => entry.mangled_port)).Nodup
  rw [List.map_append, List.nodup_append]
  refine ⟨h, List.nodup_singleton _, ?_⟩
  intro x hx hx2
  simp only [List.map_cons, List.map_nil, List.mem_singleton] at hx2
  subst hx2
  rcases List.mem_map.mp hx with ⟨e', he', hme⟩
  exact ((NatTable.has_available_port_true_iff t e.mangled_port).mp hfree e' he') hme

lemma unique_give_me {t : NatTable} (h : UniqueMangledPorts t)
    (nP nE ip pt me dur : Nat) :
    UniqueMangledPorts (t.give_me_a_port nP nE ip pt me dur).1 := by
  cases hex : t.extract_available_port with
  | some port =>
    rw [NatTable.give_me_of_extract_some t nP nE ip pt me dur hex]
    exact unique_append_free h (NatTable.extract_some_char t hex).2.1
  | none =>
    cases hex2 : (t.prune_unnecessary_ports nP).extract_available_port with
    | some port =>
      rw [NatTable.give_me_of_extract_none_some t nP nE ip pt me dur hex hex2]
      exact unique_append_free (unique_prune h nP)
        (NatTable.extract_some_char _ hex2).2.1
    | none =>
      rw [NatTable.give_me_of_extract_none_none t nP nE ip pt me dur hex hex2]
      exact unique_prune h nP

/-- C6: every NAT table state reachable from an empty table through the
public operations (outgoing translation with its allocation, incoming
translation, pruning) has pairwise distinct mangled ports: allocation only
hands out a port that extract_available_port certified free, and pruning
only removes entries. -/
theorem c6_unique_ports {t : NatTable} (h : Reachable t) : UniqueMangledPorts t := by
  induction h with
  | init nm addr => exact unique_empty nm addr
  | outgoing nP nE pkt comp ht ih =>
    obtain ⟨ip, pt, dur, heq, -⟩ := NatTable.translate_outgoing_shape _ nP nE pkt comp
    rw [heq]
    exact unique_give_me ih nP nE ip pt comp dur
  | incoming pkt ht ih =>
    rw [NatTable.translate_incoming_fst]
    exact ih
  | prune now ht ih =>
    exact unique_prune ih now

/-- C6 witness: the state reached from the empty table by one outgoing
translation has pairwise distinct mangled ports. -/
theorem c6_witness :
    UniqueMangledPorts (emptyNat.translate_outgoing 0 0 pkt5 12).1 :=
  c6_unique_ports (Reachable.outgoing 0 0 pkt5 12 (Reachable.init "e" 42))

/-! Helper lemmas: the exhaustion fixtures. -/

lemma fullTableX_avail_false {n p : Nat} (hp : p < n) :
    (fullTableX n).has_available_port p = false := by
  rw [NatTable.has_available_port_false_iff]
  refine ⟨mkEntry p, ?_, rfl⟩
  show mkEntry p ∈ (fullTable n).table ++ [expiredEntry]
  exact List.mem_append_left _ (fullTable_mem.mpr ⟨p, hp, rfl⟩)

lemma fullTableX_extract_none {n : Nat} (hn : 65535 ≤ n) :
    (fullTableX n).extract_available_port = none :=
  (NatTable.extract_none_iff _).mpr
    (fun p hp => fullTableX_avail_false (lt_of_lt_of_le hp hn))

lemma fullTableX_prune (n : Nat) :
    (fullTableX n).prune_unnecessary_ports 5 = fullTable n := by
  have ht : ((fullTableX n).table).filter
      (fun entry => decide (5 - entry.mapped_on_time < entry.time_to_live)) =
      (fullTable n).table := by
    show ((fullTable n).table ++ [expiredEntry]).filter _ = _
    rw [List.filter_append]
    have h1 : (fullTable n).table.filter
        (fun entry => decide (5 - entry.mapped_on_time < entry.time_to_live)) =
        (fullTable n).table := by
      refine List.filter_eq_self.mpr (fun e he => ?_)
      obtain ⟨i, hi, rfl⟩ := fullTable_mem.mp he
      show decide ((5 : Nat) - 0 < 10) = true
      rfl
    have h2 : [expiredEntry].filter
        (fun entry => decide (5 - entry.mapped_on_time < entry.time_to_live)) =
        ([] : List NatEntry) := by decide
    rw [h1, h2, List.append_nil]
  have hshape : (fullTableX n).prune_unnecessary_ports 5 =
      { fullTableX n with
        table := (((fullTableX n).table).filter
          (fun entry => decide (5 - entry.mapped_on_time < entry.time_to_live))) } := rfl
  rw [hshape, ht]
  rfl

lemma fullTableX_give_me {n : Nat} (hn : 65535 ≤ n) (ip pt me dur : Nat) :
    (fullTableX n).give_me_a_port 5 5 ip pt me dur =
      ((fullTableX n).prune_unnecessary_ports 5, none) :=
  NatTable.give_me_of_extract_none_none _ 5 5 ip pt me dur
    (fullTableX_extract_none hn)
    (by rw [fullTableX_prune]; exact fullTable_extract_none hn)

lemma fullTableX_translate_snd {n : Nat} (hn : 65535 ≤ n)
    (pkt : RandomTransportPacket) (comp : Nat) :
    ((fullTableX n).translate_outgoing 5 5 pkt comp).2 = none := by
  obtain ⟨ip, pt, dur, heq, hiff⟩ :=
    NatTable.translate_outgoing_shape (fullTableX n) 5 5 pkt comp
  refine hiff.mpr ?_
  rw [fullTableX_give_me hn ip pt comp dur]

lemma fullTableX_translate_fst {n : Nat} (hn : 65535 ≤ n)
    (pkt : RandomTransportPacket) (comp : Nat) :
    ((fullTableX n).translate_outgoing 5 5 pkt comp).1 = fullTable n := by
  obtain ⟨ip, pt, dur, heq, hiff⟩ :=
    NatTable.translate_outgoing_shape (fullTableX n) 5 5 pkt comp
  rw [heq, fullTableX_give_me hn ip pt comp dur]
  exact fullTableX_prune n

lemma fullTable_len (n : Nat) : (fullTable n).table.length = n := by
  show ((List.range n).map mkEntry).length = n
  rw [List.length_map, List.length_range]

lemma fullTableX_len (n : Nat) : (fullTableX n).table.length = n + 1 := by
  show ((fullTable n).table ++ [expiredEntry]).length = n + 1
  rw [List.length_append, fullTable_len]
  rfl

/-- C7, counterexample to the claim as stated: fullTableX 65535 occupies every
scanned port with live entries and additionally holds one expired entry;
the outgoing translation fails with port exhaustion, yet the table is not
left exactly as it was — the prune-and-retry cycle has removed the expired
entry before failing. -/
theorem c7_counterexample :
    ((fullTableX 65535).translate_outgoing 5 5 pktC7 0).2 = none ∧
      ((fullTableX 65535).translate_outgoing 5 5 pktC7 0).1.table ≠
        (fullTableX 65535).table := by
  constructor
  · exact fullTableX_translate_snd le_rfl pktC7 0
  · rw [fullTableX_translate_fst le_rfl pktC7 0]
    intro hcontra
    have hlen := congrArg List.length hcontra
    rw [fullTable_len, fullTableX_len] at hlen
    omega

/-- C7 amended: when the outgoing translation fails with port exhaustion,
no entry is appended and no packet is returned, but the table is not
untouched in general: it is left exactly equal to the input table with its
expired entries pruned (live entries kept in order); in particular it is
unchanged whenever no entry was expired at the prune instant. -/
theorem c7_fail_leaves_pruned (t : NatTable) (nP nE : Nat)
    (pkt : RandomTransportPacket) (comp : Nat)
    (h : (t.translate_outgoing nP nE pkt comp).2 = none) :
    (t.translate_outgoing nP nE pkt comp).1 = t.prune_unnecessary_ports nP := by
  obtain ⟨ip, pt, dur, heq, hiff⟩ := NatTable.translate_outgoing_shape t nP nE pkt comp
  rw [heq]
  exact NatTable.give_me_none_fst (hiff.mp h)

/-- C7 witness: on the exhausted table fullTableX 65535 the failing outgoing
translation leaves exactly the pruned table. -/
theorem c7_witness :
    ((fullTableX 65535).translate_outgoing 5 5 pktC7 0).1 =
      (fullTableX 65535).prune_unnecessary_ports 5 :=
  c7_fail_leaves_pruned (fullTableX 65535) 5 5 pktC7 0
    (fullTableX_translate_snd le_rfl pktC7 0)

/-! Helper lemmas: the round-trip claim. -/

lemma emptyNat_extract : emptyNat.extract_available_port = some 0 := by
  apply NatTable.extract_some_of
  · decide
  · decide
  · intro j hj
    omega

lemma c5_compute :
    emptyNat.translate_outgoing 0 0 pkt5 12 = (nat5After, some out5) := by
  rw [NatTable.translate_outgoing_found_none emptyNat 0 0 pkt5 12 rfl,
    NatTable.give_me_of_extract_some emptyNat 0 0 pkt5.source_ip pkt5.source_port 12
      pkt5.time_to_live emptyNat_extract]
  rfl

/-- C5: round-trip. For a packet P with no prior mapping, if the outgoing
translation succeeds, yielding the updated table and an outgoing packet
with mangled source port, then incoming translation (on the updated table)
of any packet whose destination port equals that mangled port rewrites its
destination address and port to exactly P's original source address and
port and returns the client identifier passed at translation time. -/
theorem c5_roundtrip (nP nE : Nat) (t : NatTable) (P q : RandomTransportPacket)
    (comp : Nat) (t' : NatTable) (out : RandomTransportPacket)
    (hfresh : t.found_on_nat P.source_ip P.source_port = none)
    (htr : t.translate_outgoing nP nE P comp = (t', some out))
    (hq : q.destination_port = out.source_port) :
    (t'.translate_incoming q).2 =
      some ({ q with destination_ip := P.source_ip,
                     destination_port := P.source_port }, comp) := by
  rw [NatTable.translate_outgoing_found_none t nP nE P comp hfresh] at htr
  cases hg : t.give_me_a_port nP nE P.source_ip P.source_port comp P.time_to_live with
  | mk t1 res =>
    rw [hg] at htr
    cases res with
    | none => simp at htr
    | some pr =>
      obtain ⟨ip, port⟩ := pr
      simp only [Prod.mk.injEq, Option.some.injEq] at htr
      obtain ⟨h1, h2⟩ := htr
      subst h1
      obtain ⟨base, hbext, htable, -⟩ := NatTable.give_me_some_char hg
      have hfree : ∀ e ∈ base.table, e.mangled_port ≠ port :=
        (NatTable.has_available_port_true_iff base port).mp
          (NatTable.extract_some_char base hbext).2.1
      have hqport : q.destination_port = port := by
        rw [← h2] at hq
        exact hq
      have hnone : base.table.find?
          (fun entry => entry.mangled_port == q.destination_port) = none := by
        rw [List.find?_eq_none]
        intro e he
        rw [hqport]
        simpa using hfree e he
      have hfind : t1.table.find?
          (fun entry => entry.mangled_port == q.destination_port) =
          some { source_ip := P.source_ip, source_port := P.source_port,
                 computer := comp, mangled_port := port,
                 mapped_on_time := nE, time_to_live := P.time_to_live } := by
        rw [htable, List.find?_append, hnone]
        simp only [Option.none_or]
        apply List.find?_cons_of_pos
        show (port == q.destination_port) = true
        simp [hqport]
      rw [NatTable.translate_incoming_of_find_some hfind]

/-- C5 witness: translating pkt5 (10:8090) through the empty table yields
out5 with mangled port 0; incoming translation of q5 (destination port 0)
on the updated table recovers pkt5's source endpoint and client 12. -/
theorem c5_witness :
    (nat5After.translate_incoming q5).2 =
      some ({ q5 with destination_ip := pkt5.source_ip,
                      destination_port := pkt5.source_port }, 12) :=
  c5_roundtrip 0 0 emptyNat pkt5 q5 12 nat5After out5 rfl c5_compute rfl

/-! Helper lemmas: popcount evaluation and correctness. -/

lemma popcount_zero : popcount 0 = 0 := by
  rw [popcount.eq_def]
  exact dif_pos rfl

lemma popcount_step {a : Nat} (h : a ≠ 0) :
    popcount a = popcount (a &&& (a - 1)) + 1 := by
  conv_lhs => rw [popcount.eq_def]
  rw [dif_neg h]

lemma countSetBits_zero : countSetBits 0 = 0 := by
  rw [countSetBits.eq_def]
  exact dif_pos rfl

lemma countSetBits_step {n : Nat} (h : n ≠ 0) :
    countSetBits n = countSetBits (n / 2) + n % 2 := by
  conv_lhs => rw [countSetBits.eq_def]
  rw [dif_neg h]

lemma and_pred_odd (b : Nat) : (2 * b + 1) &&& (2 * b) = 2 * b := by
  apply Nat.eq_of_testBit_eq
  intro i
  cases i with
  | zero =>
    rw [Nat.testBit_and]
    simp only [Nat.testBit_zero]
    have h1 : (2 * b + 1) % 2 = 1 := by omega
    have h2 : (2 * b) % 2 = 0 := by omega
    rw [h1, h2]
    rfl
  | succ i =>
    rw [Nat.testBit_and]
    simp only [Nat.testBit_add_one]
    have h1 : (2 * b + 1) / 2 = b := by omega
    have h2 : (2 * b) / 2 = b := by omega
    rw [h1, h2, Bool.and_self]

lemma and_pred_even (b : Nat) :
    (2 * b) &&& (2 * b - 1) = 2 * (b &&& (b - 1)) := by
  apply Nat.eq_of_testBit_eq
  intro i
  cases i with
  | zero =>
    rw [Nat.testBit_and]
    simp only [Nat.testBit_zero]
    have h2 : (2 * b) % 2 = 0 := by omega
    have h3 : (2 * (b &&& (b - 1))) % 2 = 0 := by omega
    rw [h2, h3]
    rfl
  | succ i =>
    rw [Nat.testBit_and]
    simp only [Nat.testBit_add_one]
    have h1 : (2 * b) / 2 = b := by omega
    have h2 : (2 * b - 1) / 2 = b - 1 := by omega
    have h3 : (2 * (b &&& (b - 1))) / 2 = b &&& (b - 1) := by omega
    rw [h1, h2, h3, ← Nat.testBit_and]

lemma popcount_double (c : Nat) : popcount (2 * c) = popcount c := by
  induction c using Nat.strong_induction_on with
  | _ c ih =>
    by_cases hc : c = 0
    · subst hc
      rw [Nat.mul_zero]
    · have h2c : 2 * c ≠ 0 := by omega
      rw [popcount_step h2c, popcount_step hc, and_pred_even c]
      have hlt : c &&& (c - 1) < c :=
        lt_of_le_of_lt Nat.and_le_right (Nat.sub_lt (Nat.pos_of_ne_zero hc) Nat.one_pos)
      rw [ih _ hlt]

lemma popcount_eq_countSetBits (a : Nat) : popcount a = countSetBits a := by
  induction a using Nat.strong_induction_on with
  | _ a ih =>
    by_cases ha : a = 0
    · subst ha
      rw [popcount_zero, countSetBits_zero]
    · have hlt : a / 2 < a := Nat.div_lt_self (Nat.pos_of_ne_zero ha) (by decide)
      rcases Nat.mod_two_eq_zero_or_one a with h | h
      · have hsplit : a = 2 * (a / 2) := by omega
        calc popcount a = popcount (2 * (a / 2)) := by rw [← hsplit]
          _ = popcount (a / 2) := popcount_double _
          _ = countSetBits (a / 2) := ih _ hlt
          _ = countSetBits (a / 2) + a % 2 := by rw [h, Nat.add_zero]
          _ = countSetBits a := (countSetBits_step ha).symm
      · have hand : a &&& (a - 1) = 2 * (a / 2) := by
          have h1 : a - 1 = 2 * (a / 2) := by omega
          have hsplit : a = 2 * (a / 2) + 1 := by omega
          rw [h1]
          nth_rewrite 1 [hsplit]
          exact and_pred_odd (a / 2)
        calc popcount a = popcount (a &&& (a - 1)) + 1 := popcount_step ha
          _ = popcount (2 * (a / 2)) + 1 := by rw [hand]
          _ = popcount (a / 2) + 1 := by rw [popcount_double]
          _ = countSetBits (a / 2) + 1 := by rw [ih _ hlt]
          _ = countSetBits (a / 2) + a % 2 := by rw [h]
          _ = countSetBits a := (countSetBits_step ha).symm

/-- C9: the (total) popcount function returns exactly the number of set
bits of its argument, and consequently count_contiguous_ones on an IPv6
mask value equals the number of set bits of the mask. countSetBits is the
specification-side bit count by binary decomposition. -/
theorem c9_popcount_spec (a : Nat) :
    popcount a = countSetBits a ∧ count_contiguous_ones a = countSetBits a :=
  ⟨popcount_eq_countSetBits a, popcount_eq_countSetBits a⟩

/-! Helper lemmas: the max_by_key tie-break. -/

lemma foldl_max_split {α : Type} (key : α → Nat) :
    ∀ (xs : List α) (x : α),
      ∃ pre post,
        x :: xs = pre ++ (xs.foldl (rust_max_step key) x) :: post ∧
        (∀ s ∈ pre, key s ≤ key (xs.foldl (rust_max_step key) x)) ∧
        (∀ s ∈ post, key s < key (xs.foldl (rust_max_step key) x)) := by
  intro xs
  induction xs with
  | nil =>
    intro x
    refine ⟨[], [], rfl, ?_, ?_⟩ <;> intro s hs <;> simp at hs
  | cons y ys ih =>
    intro x
    rw [List.foldl_cons]
    obtain ⟨pre, post, heq, hpre, hpost⟩ := ih (rust_max_step key x y)
    by_cases hxy : key y < key x
    · rw [show rust_max_step key x y = x from if_pos hxy] at heq hpre hpost ⊢
      cases pre with
      | nil =>
        rw [List.nil_append] at heq
        injection heq with ha hb
        subst hb
        rw [← ha] at hpost ⊢
        refine ⟨[], y :: ys, rfl, ?_, ?_⟩
        · intro s hs
          simp at hs
        · intro s hs
          rcases List.mem_cons.mp hs with rfl | hs'
          · exact hxy
          · exact hpost s hs'
      | cons p pre' =>
        rw [List.cons_append] at heq
        injection heq with ha hb
        subst ha
        refine ⟨x :: y :: pre', post, ?_, ?_, hpost⟩
        · rw [List.cons_append, List.cons_append, ← hb]
        · intro s hs
          rcases List.mem_cons.mp hs with rfl | hs'
          · exact hpre s (List.mem_cons_self _ _)
          · rcases List.mem_cons.mp hs' with rfl | hs''
            · exact le_trans (Nat.le_of_lt hxy) (hpre x (List.mem_cons_self _ _))
            · exact hpre s (List.mem_cons_of_mem _ hs'')
    · have hxy' : key x ≤ key y := Nat.le_of_not_lt hxy
      rw [show rust_max_step key x y = y from if_neg hxy] at heq hpre hpost ⊢
      cases pre with
      | nil =>
        rw [List.nil_append] at heq
        injection heq with ha hb
        subst hb
        rw [← ha] at hpost ⊢
        refine ⟨[x], ys, rfl, ?_, ?_⟩
        · intro s hs
          rcases List.mem_cons.mp hs with rfl | hs'
          · exact hxy'
          · simp at hs'
        · intro s hs
          exact hpost s hs
      | cons p pre' =>
        rw [List.cons_append] at heq
        injection heq with ha hb
        subst ha
        refine ⟨x :: y :: pre', post, ?_, ?_, hpost⟩
        · rw [List.cons_append, List.cons_append, ← hb]
        · intro s hs
          rcases List.mem_cons.mp hs with rfl | hs'
          · exact le_trans hxy' (hpre y (List.mem_cons_self _ _))
          · rcases List.mem_cons.mp hs' with rfl | hs''
            · exact hpre s (List.mem_cons_self _ _)
            · exact hpre s (List.mem_cons_of_mem _ hs'')

lemma max_by_key_some_split {α : Type} (key : α → Nat) {l : List α} {r : α}
    (h : max_by_key key l = some r) :
    ∃ pre post, l = pre ++ r :: post ∧
      (∀ s ∈ pre, key s ≤ key r) ∧ (∀ s ∈ post, key s < key r) := by
  cases l with
  | nil => simp [max_by_key] at h
  | cons x xs =>
    have hr : xs.foldl (rust_max_step key) x = r := by
      simpa [max_by_key] using h
    obtain ⟨pre, post, heq, hpre, hpost⟩ := foldl_max_split key xs x
    rw [hr] at heq hpre hpost
    exact ⟨pre, post, heq, hpre, hpost⟩

lemma max_by_key_none_iff {α : Type} (key : α → Nat) (l : List α) :
    max_by_key key l = none ↔ l = [] := by
  cases l <;> simp [max_by_key]

lemma popcount_three : popcount 3 = 2 := by
  rw [popcount_step (by decide), show (3 : Nat) &&& (3 - 1) = 2 from by decide,
    popcount_step (by decide), show (2 : Nat) &&& (2 - 1) = 0 from by decide,
    popcount_zero]

lemma popcount_five : popcount 5 = 2 := by
  rw [popcount_step (by decide), show (5 : Nat) &&& (5 - 1) = 4 from by decide,
    popcount_step (by decide), show (4 : Nat) &&& (4 - 1) = 0 from by decide,
    popcount_zero]

lemma tie_best : tieTable.find_best_route 0 = some routeB := by
  show max_by_key (fun route => count_contiguous_ones route.mask)
      ([routeA, routeB].filter (fun route => route.matches 0)) = some routeB
  have hfil : [routeA, routeB].filter (fun route => route.matches 0) =
      [routeA, routeB] := rfl
  rw [hfil]
  show some ([routeB].foldl
      (rust_max_step (fun route => count_contiguous_ones route.mask)) routeA) =
    some routeB
  rw [List.foldl_cons, List.foldl_nil]
  unfold rust_max_step
  rw [if_neg]
  show ¬ (count_contiguous_ones routeB.mask < count_contiguous_ones routeA.mask)
  have h5 : count_contiguous_ones routeB.mask = 2 := popcount_five
  have h3 : count_contiguous_ones routeA.mask = 2 := popcount_three
  omega

/-- C3, counterexample to the claim as stated: routeA and routeB both
match address 0 and tie on the count_contiguous_ones metric, routeA comes
first in table order, yet find_best_route returns routeB — Rust's
max_by_key keeps the last of equally-maximal elements, not the first. -/
theorem c3_counterexample :
    tieTable.table = [routeA, routeB] ∧
    routeA.matches 0 = true ∧ routeB.matches 0 = true ∧
    count_contiguous_ones routeA.mask = count_contiguous_ones routeB.mask ∧
    routeA ≠ routeB ∧
    tieTable.find_best_route 0 = some routeB := by
  refine ⟨rfl, rfl, rfl, ?_, by decide, tie_best⟩
  rw [show count_contiguous_ones routeA.mask = 2 from popcount_three,
    show count_contiguous_ones routeB.mask = 2 from popcount_five]

/-- C3 amended: find_best_route returns None exactly when no route in the
table matches the address; when it returns a route r, r matches, r belongs
to the table, r has the greatest count_contiguous_ones(mask) among the
matching routes, and among equally-maximal matching routes the LAST one in
table (insertion) order wins: the matching list splits as pre ++ r ++ post
with every key in pre at most r's and every key in post strictly below
r's. -/
theorem c3_best_route_char (t : RoutingTable) (a : Nat) :
    (t.find_best_route a = none ↔ ∀ r ∈ t.table, r.matches a = false) ∧
    (∀ r : Route, t.find_best_route a = some r →
      r.matches a = true ∧ r ∈ t.table ∧
      ∃ pre post,
        t.table.filter (fun s => s.matches a) = pre ++ r :: post ∧
        (∀ s ∈ pre,
          count_contiguous_ones s.mask ≤ count_contiguous_ones r.mask) ∧
        (∀ s ∈ post,
          count_contiguous_ones s.mask < count_contiguous_ones r.mask)) := by
  constructor
  · unfold RoutingTable.find_best_route
    rw [max_by_key_none_iff, List.filter_eq_nil_iff]
    constructor
    · intro h r hr
      have := h r hr
      simpa using this
    · intro h r hr
      simp [h r hr]
  · intro r hbest
    unfold RoutingTable.find_best_route at hbest
    obtain ⟨pre, post, heq, hpre, hpost⟩ := max_by_key_some_split _ hbest
    have hrmem : r ∈ t.table.filter (fun s => s.matches a) := by
      rw [heq]
      exact List.mem_append_right _ (List.mem_cons_self _ _)
    have hr := List.mem_filter.mp hrmem
    exact ⟨hr.2, hr.1, pre, post, heq, hpre, hpost⟩

/-- C3 witness: on the tie table at address 0, the returned route routeB
splits the matching list with every earlier route's metric at most its own
and every later route's metric strictly below. -/
theorem c3_witness :
    routeB.matches 0 = true ∧ routeB ∈ tieTable.table ∧
    ∃ pre post,
      tieTable.table.filter (fun s => s.matches 0) = pre ++ routeB :: post ∧
      (∀ s ∈ pre,
        count_contiguous_ones s.mask ≤ count_contiguous_ones routeB.mask) ∧
      (∀ s ∈ post,
        count_contiguous_ones s.mask < count_contiguous_ones routeB.mask) :=
  (c3_best_route_char tieTable 0).2 routeB tie_best

end LearningNetworking
